import Mathlib

/-!
Verification of the pngme chunk codec (src/chunk_type.rs, src/chunk.rs).

The Rust code is shallowly embedded: bytes are `Nat` values below 256,
byte buffers are `List Nat`, `u32` values are `Nat` values below `2 ^ 32`,
and fallible operations return `Except`.
-/

namespace Pngme

/-! ## Chunk types (src/chunk_type.rs) -/

/-- Error type of chunk-type decoding (`ChunkTypeDecodeError` in
src/chunk_type.rs): an invalid byte, an invalid length, or the unknown
error (kept with the source's spelling). -/
inductive ChunkTypeDecodeError where
  | invalidByte (b : Nat)
  | invalidLen (l : Nat)
  | unkownError
deriving DecidableEq, Repr

/-- A chunk type: exactly four bytes (`ChunkType` in src/chunk_type.rs).
The `[u8; 4]` array is embedded as four `Nat` fields. -/
structure ChunkType where
  b0 : Nat
  b1 : Nat
  b2 : Nat
  b3 : Nat
deriving DecidableEq, Repr

namespace ChunkType

/-- `ChunkType::bytes`: the underlying four bytes, in order. -/
def bytes (t : ChunkType) : List Nat := [t.b0, t.b1, t.b2, t.b3]

/-- `ChunkType::is_valid_byte`: the byte is an ASCII letter
(65..=90 or 97..=122). -/
def is_valid_byte (byte : Nat) : Bool :=
  (65 ≤ byte && byte ≤ 90) || (97 ≤ byte && byte ≤ 122)

/-- `ChunkType::semantic_bit_is_zero`: bit 5 of the byte is zero. -/
def semantic_bit_is_zero (bit : Nat) : Bool :=
  bit &&& (1 <<< 5) == 0

/-- `ChunkType::all_valid_bytes`: every byte is an ASCII letter. -/
def all_valid_bytes (t : ChunkType) : Bool :=
  t.bytes.all fun byte => is_valid_byte byte

/-- `ChunkType::is_valid`: four bytes, reserved bit valid, all bytes
ASCII letters. -/
def is_valid (t : ChunkType) : Bool :=
  (t.bytes.length == 4) && semantic_bit_is_zero t.b2 && t.all_valid_bytes

/-- `ChunkType::is_critical`: bit 5 of byte 0 is zero. -/
def is_critical (t : ChunkType) : Bool :=
  semantic_bit_is_zero t.b0

/-- `ChunkType::is_public`: bit 5 of byte 1 is zero. -/
def is_public (t : ChunkType) : Bool :=
  semantic_bit_is_zero t.b1

/-- `ChunkType::is_reserved_bit_valid`: bit 5 of byte 2 is zero. -/
def is_reserved_bit_valid (t : ChunkType) : Bool :=
  semantic_bit_is_zero t.b2

/-- `ChunkType::is_safe_to_copy`: bit 5 of byte 3 is not zero. -/
def is_safe_to_copy (t : ChunkType) : Bool :=
  ! semantic_bit_is_zero t.b3

/-- `impl TryFrom<[u8; 4]> for ChunkType`: scan the four bytes in order
and fail with `InvalidByte` on the first byte that is not an ASCII
letter. -/
def tryFrom (a b c d : Nat) : Except ChunkTypeDecodeError ChunkType :=
  if ¬ is_valid_byte a then .error (.invalidByte a)
  else if ¬ is_valid_byte b then .error (.invalidByte b)
  else if ¬ is_valid_byte c then .error (.invalidByte c)
  else if ¬ is_valid_byte d then .error (.invalidByte d)
  else .ok ⟨a, b, c, d⟩

/-- `ChunkType::try_from` on a byte list; defined (and only used) for
lists of exactly four bytes, where it agrees with `tryFrom`. -/
def tryFromList (l : List Nat) : Except ChunkTypeDecodeError ChunkType :=
  match l with
  | [a, b, c, d] => tryFrom a b c d
  | _ => .error .unkownError

/-- UTF-8 encoding of one Unicode scalar value, as Rust's `str` stores
its characters. -/
def utf8Bytes (c : Char) : List Nat :=
  let v := c.toNat
  if v < 128 then [v]
  else if v < 2048 then
    [192 + v / 64, 128 + v % 64]
  else if v < 65536 then
    [224 + v / 4096, 128 + v / 64 % 64, 128 + v % 64]
  else
    [240 + v / 262144, 128 + v / 4096 % 64, 128 + v / 64 % 64, 128 + v % 64]

/-- The UTF-8 bytes of a Rust string (`str::as_bytes`); a `&str` holds
the UTF-8 encoding of its characters, and `str::len` is the length of
this byte list. -/
def strBytes (s : List Char) : List Nat :=
  (s.map utf8Bytes).flatten

/-- `impl FromStr for ChunkType` (`from_str` in src/chunk_type.rs): fail
with `InvalidLen` when the UTF-8 byte length is not 4, otherwise scan
the four bytes left to right, failing with `InvalidByte` on the first
byte that is not an ASCII letter. The default match arm is unreachable:
the guard forces exactly four bytes. -/
def from_str (s : List Char) : Except ChunkTypeDecodeError ChunkType :=
  let bs := strBytes s
  if bs.length ≠ 4 then .error (.invalidLen bs.length)
  else match bs with
    | [a, b, c, d] =>
      if ¬ is_valid_byte a then .error (.invalidByte a)
      else if ¬ is_valid_byte b then .error (.invalidByte b)
      else if ¬ is_valid_byte c then .error (.invalidByte c)
      else if ¬ is_valid_byte d then .error (.invalidByte d)
      else .ok ⟨a, b, c, d⟩
    | _ => .error .unkownError

end ChunkType

/-! ## CRC-32/ISO-HDLC (the `crc` crate algorithm used by
`Chunk::gen_u32_crc`): polynomial 0x04C11DB7 reflected (0xEDB88320),
initial value 0xFFFFFFFF, input and output reflected, final xor
0xFFFFFFFF. -/

/-- The reflected CRC-32/ISO-HDLC polynomial. -/
def CRC_POLY : Nat := 0xEDB88320

/-- One bit step of the reflected CRC-32 computation. -/
def crcBitStep (t : Nat) : Nat :=
  if t % 2 = 1 then (t / 2) ^^^ CRC_POLY else t / 2

/-- `n` bit steps. -/
def crcRounds : Nat → Nat → Nat
  | 0, t => t
  | n + 1, t => crcRounds n (crcBitStep t)

/-- Feed one byte into the running CRC state: xor it in, then run the
eight bit steps. -/
def crcUpdate (s b : Nat) : Nat := crcRounds 8 (s ^^^ b)

/-- Feed a byte list into the running CRC state. -/
def crcLoop (s : Nat) (l : List Nat) : Nat := l.foldl crcUpdate s

/-! ## Chunks (src/chunk.rs) -/

/-- `MAXIMUM_LENGTH` in src/chunk.rs. -/
def MAXIMUM_LENGTH : Nat := 2147483647

/-- A chunk record (`Chunk` in src/chunk.rs): length, type, data, crc. -/
structure Chunk where
  length : Nat
  chunk_type : ChunkType
  chunk_data : List Nat
  crc : Nat
deriving DecidableEq, Repr

namespace Chunk

/-- `Chunk::gen_u32_crc`: CRC-32/ISO-HDLC checksum of a byte list. -/
def gen_u32_crc (bytes : List Nat) : Nat :=
  crcLoop 0xFFFFFFFF bytes ^^^ 0xFFFFFFFF

/-- `Chunk::new`: length is the data's byte count (cast `as u32`), crc
is computed over the type bytes followed by the data. -/
def new (chunk_type : ChunkType) (chunk_data : List Nat) : Chunk :=
  { length := chunk_data.length % 2 ^ 32
    chunk_type := chunk_type
    chunk_data := chunk_data
    crc := gen_u32_crc (chunk_type.bytes ++ chunk_data) }

/-- `Chunk::new_with_all_fields`: store the four fields verbatim. -/
def new_with_all_fields (length : Nat) (chunk_type : ChunkType)
    (chunk_data : List Nat) (crc : Nat) : Chunk :=
  { length := length, chunk_type := chunk_type
    chunk_data := chunk_data, crc := crc }

/-- `u32::from_be_bytes` on a four-byte list. -/
def u32beVal (l : List Nat) : Nat :=
  match l with
  | [a, b, c, d] => ((a * 256 + b) * 256 + c) * 256 + d
  | _ => 0

/-- `u32::to_be_bytes`: the four big-endian bytes of a `u32` value. -/
def be32 (n : Nat) : List Nat :=
  [n / 16777216 % 256, n / 65536 % 256, n / 256 % 256, n % 256]

/-- `Chunk::as_bytes`: big-endian length, type bytes, data, big-endian
crc, concatenated in that order. -/
def as_bytes (c : Chunk) : List Nat :=
  be32 c.length ++ c.chunk_type.bytes ++ c.chunk_data ++ be32 c.crc

/-- Error type of chunk parsing (`ChunkError` in src/chunk.rs, plus the
propagated cases: an exhausted reader from `read_exact`, and a chunk
type decode error). -/
inductive ParseError where
  | eofError
  | invalidLengthGT (length : Nat)
  | typeError (e : ChunkTypeDecodeError)
  | invalidLengthCmp (actual expected : Nat)
  | invalidCrc (real tried : Nat)
deriving DecidableEq, Repr

/-- `BufReader::read_exact` into an `n`-byte buffer: succeed with the
first `n` bytes and the remainder exactly when at least `n` bytes
remain. -/
def readExact (n : Nat) (l : List Nat) : Option (List Nat × List Nat) :=
  if n ≤ l.length then some (l.take n, l.drop n) else none

/-- `impl TryFrom<&[u8]> for Chunk` (`try_from` in src/chunk.rs): read
the big-endian length (rejecting lengths above `MAXIMUM_LENGTH`), the
four type bytes (validated as a `ChunkType`), `length` data bytes, and
the big-endian crc; recompute the crc over type bytes plus data and
reject on mismatch. Bytes remaining after the crc field are never
read. -/
def parseChunk (bytes : List Nat) : Except ParseError Chunk :=
  match readExact 4 bytes with
  | none => .error .eofError
  | some (lengthBytes, r1) =>
    let length := u32beVal lengthBytes
    if length > MAXIMUM_LENGTH then .error (.invalidLengthGT length)
    else match readExact 4 r1 with
      | none => .error .eofError
      | some (typeBytes, r2) =>
        match ChunkType.tryFromList typeBytes with
        | .error e => .error (.typeError e)
        | .ok chunk_type =>
          match readExact length r2 with
          | none => .error .eofError
          | some (chunk_data, r3) =>
            if chunk_data.length ≠ length then
              .error (.invalidLengthCmp chunk_data.length length)
            else match readExact 4 r3 with
              | none => .error .eofError
              | some (crcBytes, _) =>
                let tried_crc := u32beVal crcBytes
                let real_crc := gen_u32_crc (chunk_type.bytes ++ chunk_data)
                if tried_crc ≠ real_crc then
                  .error (.invalidCrc real_crc tried_crc)
                else .ok (new_with_all_fields length chunk_type chunk_data real_crc)

end Chunk

end Pngme

/-! ## CRC state lemmas: the running state stays below `2 ^ 32` and each
step is injective there, so two byte streams that first differ at some
byte keep distinct states forever after. -/

namespace Pngme

theorem crcBitStep_lt {t : Nat} (h : t < 2 ^ 32) : crcBitStep t < 2 ^ 32 := by
  unfold crcBitStep
  split
  · exact Nat.xor_lt_two_pow (by omega) (by norm_num [CRC_POLY])
  · omega

theorem xor_poly_ge {x : Nat} (h : x < 2 ^ 31) : 2 ^ 31 ≤ x ^^^ CRC_POLY := by
  apply Nat.testBit_implies_ge (i := 31)
  rw [Nat.testBit_xor]
  rw [Nat.testBit_lt_two_pow h]
  norm_num [CRC_POLY]
  rfl

theorem crcBitStep_inj {t t' : Nat} (h : t < 2 ^ 32) (h' : t' < 2 ^ 32)
    (heq : crcBitStep t = crcBitStep t') : t = t' := by
  unfold crcBitStep at heq
  split at heq <;> split at heq
  · have : t / 2 = t' / 2 := Nat.xor_left_inj.mp heq
    omega
  · have h1 : t / 2 < 2 ^ 31 := by omega
    have h2 : t' / 2 < 2 ^ 31 := by omega
    have := xor_poly_ge h1
    omega
  · have h1 : t / 2 < 2 ^ 31 := by omega
    have h2 : t' / 2 < 2 ^ 31 := by omega
    have := xor_poly_ge h2
    omega
  · omega

theorem crcRounds_lt {t : Nat} (n : Nat) (h : t < 2 ^ 32) :
    crcRounds n t < 2 ^ 32 := by
  induction n generalizing t with
  | zero => exact h
  | succ n ih => exact ih (crcBitStep_lt h)

theorem crcRounds_inj {t t' : Nat} (n : Nat) (h : t < 2 ^ 32)
    (h' : t' < 2 ^ 32) (heq : crcRounds n t = crcRounds n t') : t = t' := by
  induction n generalizing t t' with
  | zero => exact heq
  | succ n ih =>
    exact crcBitStep_inj h h' (ih (crcBitStep_lt h) (crcBitStep_lt h') heq)

theorem crcUpdate_lt {s b : Nat} (hs : s < 2 ^ 32) (hb : b < 256) :
    crcUpdate s b < 2 ^ 32 :=
  crcRounds_lt 8 (Nat.xor_lt_two_pow hs (by omega))

theorem crcUpdate_inj_state {s s' b : Nat} (hs : s < 2 ^ 32)
    (hs' : s' < 2 ^ 32) (hb : b < 256) (hne : s ≠ s') :
    crcUpdate s b ≠ crcUpdate s' b := by
  intro heq
  have hx : s ^^^ b = s' ^^^ b :=
    crcRounds_inj 8 (Nat.xor_lt_two_pow hs (by omega))
      (Nat.xor_lt_two_pow hs' (by omega)) heq
  exact hne (Nat.xor_left_inj.mp hx)

theorem crcUpdate_inj_byte {s b b' : Nat} (hs : s < 2 ^ 32)
    (hb : b < 2 ^ 32) (hb' : b' < 2 ^ 32) (hne : b ≠ b') :
    crcUpdate s b ≠ crcUpdate s b' := by
  intro heq
  have hx : s ^^^ b = s ^^^ b' :=
    crcRounds_inj 8 (Nat.xor_lt_two_pow hs hb)
      (Nat.xor_lt_two_pow hs hb') heq
  exact hne (Nat.xor_right_inj.mp hx)

theorem crcLoop_lt {s : Nat} {l : List Nat} (hs : s < 2 ^ 32)
    (hl : ∀ b ∈ l, b < 256) : crcLoop s l < 2 ^ 32 := by
  induction l generalizing s with
  | nil => exact hs
  | cons b rest ih =>
    have hb : b < 256 := hl b (by simp)
    exact ih (crcUpdate_lt hs hb) fun x hx => hl x (by simp [hx])

theorem crcLoop_inj_state {s s' : Nat} {l : List Nat} (hs : s < 2 ^ 32)
    (hs' : s' < 2 ^ 32) (hl : ∀ b ∈ l, b < 256) (hne : s ≠ s') :
    crcLoop s l ≠ crcLoop s' l := by
  induction l generalizing s s' with
  | nil => exact hne
  | cons b rest ih =>
    have hb : b < 256 := hl b (by simp)
    exact ih (crcUpdate_lt hs hb) (crcUpdate_lt hs' hb)
      (fun x hx => hl x (by simp [hx]))
      (crcUpdate_inj_state hs hs' hb hne)

theorem Chunk.gen_u32_crc_lt {l : List Nat} (hl : ∀ b ∈ l, b < 256) :
    Chunk.gen_u32_crc l < 2 ^ 32 := by
  unfold Chunk.gen_u32_crc
  exact Nat.xor_lt_two_pow (crcLoop_lt (by norm_num) hl) (by norm_num)

/-- Changing one byte of the input changes the CRC-32 checksum. -/
theorem Chunk.gen_u32_crc_ne_of_byte_ne {pre suf : List Nat} {b b' : Nat}
    (hpre : ∀ x ∈ pre, x < 256) (hsuf : ∀ x ∈ suf, x < 256)
    (hb : b < 256) (hb' : b' < 256) (hne : b ≠ b') :
    Chunk.gen_u32_crc (pre ++ b :: suf) ≠ Chunk.gen_u32_crc (pre ++ b' :: suf) := by
  unfold Chunk.gen_u32_crc
  intro heq
  have hx : crcLoop 4294967295 (pre ++ b :: suf) =
      crcLoop 4294967295 (pre ++ b' :: suf) := Nat.xor_left_inj.mp heq
  unfold crcLoop at hx
  rw [List.foldl_append, List.foldl_append] at hx
  simp only [List.foldl_cons] at hx
  have hsl : List.foldl crcUpdate 4294967295 pre < 2 ^ 32 :=
    crcLoop_lt (by norm_num) hpre
  exact crcLoop_inj_state
    (crcUpdate_lt hsl hb) (crcUpdate_lt hsl hb') hsuf
    (crcUpdate_inj_byte hsl (by omega) (by omega) hne) hx

end Pngme

/-! ## Parsing a well-framed buffer -/

namespace Pngme

theorem ChunkType.tryFrom_eq_ok {a b c d : Nat} {t : ChunkType}
    (h : ChunkType.tryFrom a b c d = .ok t) : t = ⟨a, b, c, d⟩ := by
  unfold ChunkType.tryFrom at h
  repeat' split at h
  all_goals simp_all

theorem ChunkType.tryFrom_of_valid {a b c d : Nat}
    (ha : is_valid_byte a) (hb : is_valid_byte b)
    (hc : is_valid_byte c) (hd : is_valid_byte d) :
    ChunkType.tryFrom a b c d = .ok ⟨a, b, c, d⟩ := by
  unfold ChunkType.tryFrom
  simp [ha, hb, hc, hd]

theorem Chunk.be32_length (n : Nat) : (be32 n).length = 4 := rfl

theorem Chunk.u32beVal_be32 {n : Nat} (h : n < 2 ^ 32) :
    u32beVal (be32 n) = n := by
  simp only [be32, u32beVal]
  omega

theorem Chunk.readExact_of_length {n : Nat} {l rest : List Nat}
    (h : l.length = n) : readExact n (l ++ rest) = some (l, rest) := by
  unfold readExact
  rw [if_pos, List.take_left' h, List.drop_left' h]
  rw [List.length_append]
  omega

/-- Parsing a buffer framed as length, four type bytes, data, crc, and
arbitrary trailing bytes: the declared length matches the data, so the
outcome is decided by type-byte validation and then the crc check. -/
theorem Chunk.parseChunk_framed (a b c d : Nat) (data : List Nat)
    (tried : Nat) (extra : List Nat)
    (hlen : data.length ≤ MAXIMUM_LENGTH) (htried : tried < 2 ^ 32) :
    parseChunk (be32 data.length ++ [a, b, c, d] ++ data ++ be32 tried ++ extra) =
      match ChunkType.tryFrom a b c d with
      | .error e => .error (.typeError e)
      | .ok ct =>
        if tried ≠ gen_u32_crc ([a, b, c, d] ++ data) then
          .error (.invalidCrc (gen_u32_crc ([a, b, c, d] ++ data)) tried)
        else .ok (new_with_all_fields data.length ct data
            (gen_u32_crc ([a, b, c, d] ++ data))) := by
  have hlt : data.length < 2 ^ 32 := by
    unfold MAXIMUM_LENGTH at hlen
    omega
  unfold parseChunk
  simp only [List.append_assoc]
  rw [readExact_of_length (be32_length data.length)]
  simp only [u32beVal_be32 hlt]
  rw [if_neg (by omega)]
  rw [readExact_of_length (n := 4) (l := [a, b, c, d]) rfl]
  simp only [ChunkType.tryFromList]
  cases h : ChunkType.tryFrom a b c d with
  | error e => rfl
  | ok ct =>
    have hct : ct = ⟨a, b, c, d⟩ := ChunkType.tryFrom_eq_ok h
    rw [readExact_of_length (l := data) rfl]
    simp only [if_neg (by omega : ¬ data.length ≠ data.length)]
    rw [readExact_of_length (be32_length tried)]
    simp only [u32beVal_be32 htried, hct]
    rfl

end Pngme

/-! ## Concrete fixtures and claim theorems -/

namespace Pngme

set_option maxRecDepth 40000

/-- The chunk type "RuSt" ([82, 117, 83, 116]). -/
def rustType : ChunkType := ⟨82, 117, 83, 116⟩

/-- The 42-byte message used by the repository's tests. -/
def secretMsg : List Nat :=
  ("This is where your secret message will be!").toList.map Char.toNat

theorem ChunkType.semantic_bit_iff (b : Nat) :
    ChunkType.semantic_bit_is_zero b = true ↔ b.testBit 5 = false := by
  unfold ChunkType.semantic_bit_is_zero
  have h : (1 <<< 5 : Nat) = 2 ^ 5 := rfl
  rw [h, Nat.and_two_pow]
  cases hb : b.testBit 5 <;> simp

/-- C6: `is_critical`, `is_public`, `is_reserved_bit_valid` hold exactly
when bit 5 of bytes 0, 1, 2 respectively is zero; `is_safe_to_copy`
holds exactly when bit 5 of byte 3 is one; and `is_valid` holds exactly
when all four bytes are ASCII letters and bit 5 of byte 2 is zero. -/
theorem C6_semantic_bit_predicates (t : ChunkType) :
    (t.is_critical = true ↔ t.b0.testBit 5 = false) ∧
    (t.is_public = true ↔ t.b1.testBit 5 = false) ∧
    (t.is_reserved_bit_valid = true ↔ t.b2.testBit 5 = false) ∧
    (t.is_safe_to_copy = true ↔ t.b3.testBit 5 = true) ∧
    (t.is_valid = true ↔
      ((∀ x ∈ t.bytes, ChunkType.is_valid_byte x = true) ∧
        t.b2.testBit 5 = false)) := by
  refine ⟨ChunkType.semantic_bit_iff t.b0, ChunkType.semantic_bit_iff t.b1,
    ChunkType.semantic_bit_iff t.b2, ?_, ?_⟩
  · unfold ChunkType.is_safe_to_copy
    rw [Bool.not_eq_true']
    rw [show (ChunkType.semantic_bit_is_zero t.b3 = false) ↔
        ¬ (ChunkType.semantic_bit_is_zero t.b3 = true) by simp]
    rw [ChunkType.semantic_bit_iff t.b3]
    simp
  · unfold ChunkType.is_valid ChunkType.all_valid_bytes
    rw [show ∀ x y z : Bool, (x && y && z) = true ↔
        (x = true ∧ y = true ∧ z = true) by decide]
    rw [ChunkType.semantic_bit_iff t.b2]
    simp [ChunkType.bytes]
    tauto

set_option maxRecDepth 40000 in
/-- C3: constructing a chunk (`Chunk::new`) from the type "RuSt" and the
42-byte message "This is where your secret message will be!" gives a
length field of 42 and a crc field of exactly 2882656334. -/
theorem C3_new_rust_chunk :
    (Chunk.new rustType secretMsg).length = 42 ∧
    (Chunk.new rustType secretMsg).crc = 2882656334 := by
  constructor <;> decide

/-- C2: `Chunk::as_bytes` is exactly the big-endian length bytes, the
four type bytes, the data bytes, and the big-endian crc bytes, in that
order, and (with the length invariant) has exactly 12 + length bytes. -/
theorem C2_as_bytes_layout (c : Chunk) (h : c.length = c.chunk_data.length) :
    c.as_bytes =
      Chunk.be32 c.length ++ c.chunk_type.bytes ++ c.chunk_data ++
        Chunk.be32 c.crc ∧
    c.as_bytes.length = 12 + c.length := by
  refine ⟨rfl, ?_⟩
  simp [Chunk.as_bytes, Chunk.be32, ChunkType.bytes]
  omega

set_option maxRecDepth 40000 in
/-- Witness for C2 at the test chunk. -/
theorem C2_as_bytes_layout_witness :
    (Chunk.new rustType secretMsg).as_bytes =
      Chunk.be32 (Chunk.new rustType secretMsg).length ++
        (Chunk.new rustType secretMsg).chunk_type.bytes ++
        (Chunk.new rustType secretMsg).chunk_data ++
        Chunk.be32 (Chunk.new rustType secretMsg).crc ∧
    (Chunk.new rustType secretMsg).as_bytes.length =
      12 + (Chunk.new rustType secretMsg).length :=
  C2_as_bytes_layout (Chunk.new rustType secretMsg) (by decide)

theorem Chunk.readExact_eq_some {n : Nat} {l p r : List Nat}
    (h : Chunk.readExact n l = some (p, r)) :
    p = l.take n ∧ r = l.drop n ∧ n ≤ l.length := by
  unfold Chunk.readExact at h
  split at h
  · injection h with h'
    injection h' with h1 h2
    exact ⟨h1.symm, h2.symm, by omega⟩
  · exact absurd h (by simp)

/-- The parse outcome is the length-mismatch error. -/
def Chunk.isLengthCmpError (r : Except Chunk.ParseError Chunk) : Bool :=
  match r with
  | .error (.invalidLengthCmp _ _) => true
  | _ => false

/-- C9: the redundant length comparison in `Chunk` parsing never fires:
whenever the exact read of the data bytes succeeds, the observed data
length equals the declared one, so `parseChunk` never returns the
length-mismatch error. -/
theorem C9_length_mismatch_unreachable (bytes : List Nat) :
    Chunk.isLengthCmpError (Chunk.parseChunk bytes) = false := by
  unfold Chunk.parseChunk
  dsimp only []
  split
  · rfl
  case _ lb r1 heq =>
    split
    · rfl
    split
    · rfl
    case _ tb r2 heq2 =>
      split
      · rfl
      case _ ct heq3 =>
        split
        · rfl
        case _ cd r3 heq4 =>
          obtain ⟨hp, hr, hle⟩ := Chunk.readExact_eq_some heq4
          split
          case _ hne =>
            exfalso
            apply hne
            rw [hp, List.length_take]
            omega
          · split
            · rfl
            · split <;> rfl

end Pngme

namespace Pngme

/-- Each byte of a well-formed chunk type is below 256. -/
theorem ChunkType.lt_256_of_valid {b : Nat}
    (h : ChunkType.is_valid_byte b = true) : b < 256 := by
  unfold ChunkType.is_valid_byte at h
  simp at h
  omega

theorem ChunkType.all_valid_bytes_iff (t : ChunkType) :
    t.all_valid_bytes = true ↔
      ChunkType.is_valid_byte t.b0 = true ∧ ChunkType.is_valid_byte t.b1 = true ∧
      ChunkType.is_valid_byte t.b2 = true ∧ ChunkType.is_valid_byte t.b3 = true := by
  unfold ChunkType.all_valid_bytes ChunkType.bytes
  simp

set_option maxRecDepth 40000 in
/-- C1: a chunk satisfying the data-model invariant parses back from its
own serialization to an equal chunk in all four fields. -/
theorem C1_roundtrip (c : Chunk)
    (hlen : c.length = c.chunk_data.length)
    (hcrc : c.crc = Chunk.gen_u32_crc (c.chunk_type.bytes ++ c.chunk_data))
    (hmax : c.length ≤ MAXIMUM_LENGTH)
    (htype : c.chunk_type.all_valid_bytes = true)
    (hdata : ∀ b ∈ c.chunk_data, b < 256) :
    Chunk.parseChunk c.as_bytes = .ok c := by
  obtain ⟨L, ⟨a, b, c2, d⟩, data, crc⟩ := c
  simp only at hlen hcrc hmax htype hdata
  subst hlen
  obtain ⟨ha, hb, hc2, hd⟩ := (ChunkType.all_valid_bytes_iff _).mp htype
  have hbytes : ∀ x ∈ (ChunkType.mk a b c2 d).bytes ++ data, x < 256 := by
    intro x hx
    simp [ChunkType.bytes] at hx
    rcases hx with h | h | h | h | h
    · exact h ▸ ChunkType.lt_256_of_valid ha
    · exact h ▸ ChunkType.lt_256_of_valid hb
    · exact h ▸ ChunkType.lt_256_of_valid hc2
    · exact h ▸ ChunkType.lt_256_of_valid hd
    · exact hdata x h
  have hcrclt : crc < 2 ^ 32 := hcrc ▸ Chunk.gen_u32_crc_lt hbytes
  have hframe := Chunk.parseChunk_framed a b c2 d data crc [] hmax hcrclt
  rw [List.append_nil] at hframe
  show Chunk.parseChunk
      (Chunk.be32 data.length ++ [a, b, c2, d] ++ data ++ Chunk.be32 crc) = _
  have hgen : crc = Chunk.gen_u32_crc ([a, b, c2, d] ++ data) := hcrc
  rw [hframe, ChunkType.tryFrom_of_valid ha hb hc2 hd]
  dsimp only []
  rw [if_neg (by omega), ← hgen]
  rfl

set_option maxRecDepth 40000 in
/-- Witness for C1 at the test chunk. -/
theorem C1_roundtrip_witness :
    Chunk.parseChunk (Chunk.new rustType secretMsg).as_bytes =
      .ok (Chunk.new rustType secretMsg) :=
  C1_roundtrip (Chunk.new rustType secretMsg) (by decide) rfl
    (by decide) (by decide) (by decide)

end Pngme

namespace Pngme

/-- C8: once the length, type and data fields have been read
successfully, parsing fails with the crc-mismatch error — carrying the
recomputed and the embedded values — exactly when the embedded
big-endian crc differs from the CRC-32/ISO-HDLC checksum recomputed
over the type bytes followed by the data; and any successfully returned
chunk carries that recomputed checksum in its crc field. -/
theorem C8_crc_mismatch_iff (a b c d : Nat) (data : List Nat)
    (tried : Nat) (extra : List Nat)
    (ha : ChunkType.is_valid_byte a = true)
    (hb : ChunkType.is_valid_byte b = true)
    (hc : ChunkType.is_valid_byte c = true)
    (hd : ChunkType.is_valid_byte d = true)
    (hlen : data.length ≤ MAXIMUM_LENGTH) (htried : tried < 2 ^ 32) :
    (Chunk.parseChunk
        (Chunk.be32 data.length ++ [a, b, c, d] ++ data ++ Chunk.be32 tried ++ extra) =
        .error (.invalidCrc (Chunk.gen_u32_crc ([a, b, c, d] ++ data)) tried)
      ↔ tried ≠ Chunk.gen_u32_crc ([a, b, c, d] ++ data)) ∧
    (∀ ch, Chunk.parseChunk
        (Chunk.be32 data.length ++ [a, b, c, d] ++ data ++ Chunk.be32 tried ++ extra) =
        .ok ch →
      ch.crc = Chunk.gen_u32_crc ([a, b, c, d] ++ data)) := by
  have hframe := Chunk.parseChunk_framed a b c d data tried extra hlen htried
  rw [hframe, ChunkType.tryFrom_of_valid ha hb hc hd]
  dsimp only []
  by_cases hcrc : tried = Chunk.gen_u32_crc ([a, b, c, d] ++ data)
  · rw [if_neg (by omega)]
    constructor
    · constructor
      · intro h
        exact absurd h (by simp)
      · intro h
        exact absurd hcrc h
    · intro ch h
      injection h with h
      rw [← h, Chunk.new_with_all_fields]
  · rw [if_pos (by omega)]
    constructor
    · constructor
      · intro _
        exact hcrc
      · intro _
        rfl
    · intro ch h
      exact absurd h (by simp)

set_option maxRecDepth 40000 in
/-- Witness for C8 at the test chunk with a corrupted crc field. -/
theorem C8_crc_mismatch_iff_witness :
    (Chunk.parseChunk
        (Chunk.be32 (secretMsg.length) ++ [82, 117, 83, 116] ++ secretMsg ++
          Chunk.be32 2882656333 ++ []) =
        .error (.invalidCrc (Chunk.gen_u32_crc ([82, 117, 83, 116] ++ secretMsg)) 2882656333)
      ↔ (2882656333 : Nat) ≠ Chunk.gen_u32_crc ([82, 117, 83, 116] ++ secretMsg)) ∧
    (∀ ch, Chunk.parseChunk
        (Chunk.be32 (secretMsg.length) ++ [82, 117, 83, 116] ++ secretMsg ++
          Chunk.be32 2882656333 ++ []) = .ok ch →
      ch.crc = Chunk.gen_u32_crc ([82, 117, 83, 116] ++ secretMsg)) :=
  C8_crc_mismatch_iff 82 117 83 116 secretMsg 2882656333 []
    (by decide) (by decide) (by decide) (by decide) (by decide) (by decide)

/-- C10: a buffer that begins with one well-formed chunk record parses
successfully whatever bytes follow the record, to the same chunk the
record alone parses to. -/
theorem C10_trailing_bytes_ignored (a b c d : Nat) (data : List Nat)
    (extra : List Nat)
    (ha : ChunkType.is_valid_byte a = true)
    (hb : ChunkType.is_valid_byte b = true)
    (hc : ChunkType.is_valid_byte c = true)
    (hd : ChunkType.is_valid_byte d = true)
    (hlen : data.length ≤ MAXIMUM_LENGTH)
    (hdata : ∀ x ∈ data, x < 256) :
    Chunk.parseChunk (Chunk.be32 data.length ++ [a, b, c, d] ++ data ++
        Chunk.be32 (Chunk.gen_u32_crc ([a, b, c, d] ++ data)) ++ extra) =
      .ok (Chunk.new_with_all_fields data.length ⟨a, b, c, d⟩ data
        (Chunk.gen_u32_crc ([a, b, c, d] ++ data))) ∧
    Chunk.parseChunk (Chunk.be32 data.length ++ [a, b, c, d] ++ data ++
        Chunk.be32 (Chunk.gen_u32_crc ([a, b, c, d] ++ data)) ++ extra) =
      Chunk.parseChunk (Chunk.be32 data.length ++ [a, b, c, d] ++ data ++
        Chunk.be32 (Chunk.gen_u32_crc ([a, b, c, d] ++ data))) := by
  have hbytes : ∀ x ∈ [a, b, c, d] ++ data, x < 256 := by
    intro x hx
    simp at hx
    rcases hx with h | h | h | h | h
    · exact h ▸ ChunkType.lt_256_of_valid ha
    · exact h ▸ ChunkType.lt_256_of_valid hb
    · exact h ▸ ChunkType.lt_256_of_valid hc
    · exact h ▸ ChunkType.lt_256_of_valid hd
    · exact hdata x h
  have hgen : Chunk.gen_u32_crc ([a, b, c, d] ++ data) < 2 ^ 32 :=
    Chunk.gen_u32_crc_lt hbytes
  have hok : ∀ rest : List Nat,
      Chunk.parseChunk (Chunk.be32 data.length ++ [a, b, c, d] ++ data ++
        Chunk.be32 (Chunk.gen_u32_crc ([a, b, c, d] ++ data)) ++ rest) =
      .ok (Chunk.new_with_all_fields data.length ⟨a, b, c, d⟩ data
        (Chunk.gen_u32_crc ([a, b, c, d] ++ data))) := by
    intro rest
    have hframe := Chunk.parseChunk_framed a b c d data
      (Chunk.gen_u32_crc ([a, b, c, d] ++ data)) rest hlen hgen
    rw [hframe, ChunkType.tryFrom_of_valid ha hb hc hd]
    dsimp only []
    rw [if_neg (by omega)]
  refine ⟨hok extra, ?_⟩
  rw [hok extra]
  have h2 := hok []
  rw [List.append_nil] at h2
  rw [h2]

set_option maxRecDepth 40000 in
/-- Witness for C10 at the test chunk followed by three stray bytes. -/
theorem C10_trailing_bytes_ignored_witness :
    Chunk.parseChunk (Chunk.be32 secretMsg.length ++ [82, 117, 83, 116] ++ secretMsg ++
        Chunk.be32 (Chunk.gen_u32_crc ([82, 117, 83, 116] ++ secretMsg)) ++ [1, 2, 3]) =
      .ok (Chunk.new_with_all_fields secretMsg.length ⟨82, 117, 83, 116⟩ secretMsg
        (Chunk.gen_u32_crc ([82, 117, 83, 116] ++ secretMsg))) ∧
    Chunk.parseChunk (Chunk.be32 secretMsg.length ++ [82, 117, 83, 116] ++ secretMsg ++
        Chunk.be32 (Chunk.gen_u32_crc ([82, 117, 83, 116] ++ secretMsg)) ++ [1, 2, 3]) =
      Chunk.parseChunk (Chunk.be32 secretMsg.length ++ [82, 117, 83, 116] ++ secretMsg ++
        Chunk.be32 (Chunk.gen_u32_crc ([82, 117, 83, 116] ++ secretMsg))) :=
  C10_trailing_bytes_ignored 82 117 83 116 secretMsg [1, 2, 3]
    (by decide) (by decide) (by decide) (by decide) (by decide) (by decide)

end Pngme

namespace Pngme

deriving instance DecidableEq for Except

/-- The chunk data-model invariant of the spec: the length field counts
the data bytes, the crc field is the CRC-32/ISO-HDLC checksum of the
type bytes followed by the data, and the length is at most
`MAXIMUM_LENGTH`. -/
def ChunkInv (c : Chunk) : Prop :=
  c.length = c.chunk_data.length ∧
  c.crc = Chunk.gen_u32_crc (c.chunk_type.bytes ++ c.chunk_data) ∧
  c.length ≤ MAXIMUM_LENGTH

/-- Any chunk returned by `parseChunk` satisfies the invariant. -/
theorem Chunk.parseChunk_ok_inv {bytes : List Nat} {c : Chunk}
    (h : Chunk.parseChunk bytes = .ok c) : ChunkInv c := by
  unfold Chunk.parseChunk at h
  dsimp only [] at h
  split at h
  · exact absurd h (by simp)
  case _ lb r1 heq1 =>
    split at h
    · exact absurd h (by simp)
    case _ hmax =>
      split at h
      · exact absurd h (by simp)
      case _ tb r2 heq2 =>
        split at h
        · exact absurd h (by simp)
        case _ ct heq3 =>
          split at h
          · exact absurd h (by simp)
          case _ cd r3 heq4 =>
            obtain ⟨hcd, _, hle⟩ := Chunk.readExact_eq_some heq4
            split at h
            · exact absurd h (by simp)
            case _ hlen =>
              split at h
              · exact absurd h (by simp)
              case _ cb r4 heq5 =>
                split at h
                · exact absurd h (by simp)
                case _ hcrc =>
                  injection h with h
                  subst h
                  unfold ChunkInv Chunk.new_with_all_fields
                  dsimp only []
                  exact ⟨by omega, rfl, by omega⟩

/-- C7 counterexample: `Chunk::new_with_all_fields` stores its
arguments verbatim with no validation, so a length of 99 with empty
data and crc 0 yields a chunk violating the invariant. -/
theorem C7_counterexample :
    ¬ ChunkInv (Chunk.new_with_all_fields 99 rustType [] 0) := by
  intro h
  exact absurd h.1 (by decide)

/-- C7 amended: `Chunk::new` establishes the data-model invariant
whenever the data has at most `MAXIMUM_LENGTH` bytes, and every chunk
returned by parsing satisfies it (`new_with_all_fields` itself performs
no validation). -/
theorem C7_constructors_establish_invariant :
    (∀ (t : ChunkType) (data : List Nat), data.length ≤ MAXIMUM_LENGTH →
      ChunkInv (Chunk.new t data)) ∧
    (∀ (bytes : List Nat) (c : Chunk), Chunk.parseChunk bytes = .ok c →
      ChunkInv c) := by
  constructor
  · intro t data h
    have hlt : data.length < 2 ^ 32 := by
      unfold MAXIMUM_LENGTH at h
      omega
    refine ⟨Nat.mod_eq_of_lt hlt, rfl, ?_⟩
    rw [show (Chunk.new t data).length = data.length % 2 ^ 32 from rfl]
    rw [Nat.mod_eq_of_lt hlt]
    exact h
  · intro bytes c h
    exact Chunk.parseChunk_ok_inv h

set_option maxRecDepth 40000 in
/-- Witness for C7 at the test chunk and at a parsed empty chunk. -/
theorem C7_constructors_establish_invariant_witness :
    ChunkInv (Chunk.new rustType secretMsg) ∧
    ChunkInv (Chunk.new rustType []) :=
  ⟨C7_constructors_establish_invariant.1 rustType secretMsg (by decide),
   C7_constructors_establish_invariant.2 (Chunk.new rustType []).as_bytes
     (Chunk.new rustType []) (by decide)⟩

end Pngme

namespace Pngme

/-- Flip bit `k` of the byte at index `i` of a buffer. -/
def flipBit (l : List Nat) (i k : Nat) : List Nat :=
  l.set i ((l.getD i 0) ^^^ 2 ^ k)

theorem flipBit_append_left {l r : List Nat} {i k : Nat} (h : i < l.length) :
    flipBit (l ++ r) i k = flipBit l i k ++ r := by
  unfold flipBit
  rw [List.set_append_left _ _ h]
  congr 2
  simp [List.getElem?_append_left h]

theorem flipBit_append_right (l : List Nat) {r : List Nat} (i k : Nat) :
    flipBit (l ++ r) (l.length + i) k = l ++ flipBit r i k := by
  unfold flipBit
  rw [List.set_append_right _ _ (by omega)]
  have h1 : l.length + i - l.length = i := by omega
  rw [h1]
  congr 2
  rw [List.getD_eq_getElem?_getD, List.getD_eq_getElem?_getD,
    List.getElem?_append_right (by omega : l.length ≤ l.length + i), h1]

theorem flipBit_length (l : List Nat) (i k : Nat) :
    (flipBit l i k).length = l.length := by
  simp [flipBit]

/-- Flipping a bit of any byte changes the CRC-32 checksum. -/
theorem Chunk.gen_u32_crc_flipBit_ne {l : List Nat} {j k : Nat}
    (hj : j < l.length) (hk : k < 8) (hl : ∀ x ∈ l, x < 256) :
    Chunk.gen_u32_crc (flipBit l j k) ≠ Chunk.gen_u32_crc l := by
  have hb' : l.getD j 0 = l[j] := by
    simp [List.getD_eq_getElem?_getD, List.getElem?_eq_getElem hj]
  have hdecomp : l = l.take j ++ l.getD j 0 :: l.drop (j + 1) := by
    rw [hb', ← List.drop_eq_getElem_cons hj, List.take_append_drop]
  have hset : flipBit l j k =
      l.take j ++ (l.getD j 0 ^^^ 2 ^ k) :: l.drop (j + 1) := by
    unfold flipBit
    rw [List.set_eq_take_cons_drop _ hj]
  rw [hset]
  conv_rhs => rw [hdecomp]
  have hmem : l[j] ∈ l := List.getElem_mem hj
  have hb : l.getD j 0 < 256 := by
    rw [hb']
    exact hl _ hmem
  have h2k : 2 ^ k < 256 := by
    calc 2 ^ k < 2 ^ 8 := Nat.pow_lt_pow_right (by omega) hk
    _ = 256 := rfl
  have hflip : l.getD j 0 ^^^ 2 ^ k < 256 := Nat.xor_lt_two_pow (n := 8) hb h2k
  apply Chunk.gen_u32_crc_ne_of_byte_ne
  · intro x hx
    exact hl x (List.mem_of_mem_take hx)
  · intro x hx
    exact hl x (List.mem_of_mem_drop hx)
  · exact hflip
  · exact hb
  · intro heq
    have hzero : l.getD j 0 ^^^ 2 ^ k = l.getD j 0 ^^^ 0 := by
      rw [Nat.xor_zero]
      exact heq
    have h0 : (2 ^ k : Nat) = 0 := Nat.xor_right_inj.mp hzero
    exact absurd h0 (by positivity)

end Pngme

namespace Pngme

theorem ChunkType.tryFrom_find (a b c d : Nat) :
    ChunkType.tryFrom a b c d =
      match [a, b, c, d].find? (fun x => ! ChunkType.is_valid_byte x) with
      | some x => .error (.invalidByte x)
      | none => .ok ⟨a, b, c, d⟩ := by
  unfold ChunkType.tryFrom
  by_cases ha : ChunkType.is_valid_byte a <;>
    by_cases hb : ChunkType.is_valid_byte b <;>
      by_cases hc : ChunkType.is_valid_byte c <;>
        by_cases hd : ChunkType.is_valid_byte d <;>
          simp [List.find?, ha, hb, hc, hd]

/-- The parse outcome is the crc-mismatch error. -/
def Chunk.isCrcMismatch (r : Except Chunk.ParseError Chunk) : Bool :=
  match r with
  | .error (.invalidCrc _ _) => true
  | _ => false

/-- Parsing a framed record whose embedded crc does not match: the
outcome is the first invalid type byte if any, else the crc mismatch. -/
theorem Chunk.parseChunk_msg_ne (a b c d : Nat) (data : List Nat)
    (crc : Nat) (hlen : data.length ≤ MAXIMUM_LENGTH)
    (hcrclt : crc < 2 ^ 32)
    (hne : crc ≠ Chunk.gen_u32_crc ([a, b, c, d] ++ data)) :
    Chunk.parseChunk
      (Chunk.be32 data.length ++ (([a, b, c, d] ++ data) ++ Chunk.be32 crc)) =
      match [a, b, c, d].find? (fun x => ! ChunkType.is_valid_byte x) with
      | some x => .error (.typeError (.invalidByte x))
      | none => .error (.invalidCrc (Chunk.gen_u32_crc ([a, b, c, d] ++ data)) crc) := by
  have hframe := Chunk.parseChunk_framed a b c d data crc [] hlen hcrclt
  rw [List.append_nil] at hframe
  simp only [List.append_assoc] at hframe ⊢
  rw [hframe, ChunkType.tryFrom_find]
  cases hfind : [a, b, c, d].find? (fun x => ! ChunkType.is_valid_byte x) with
  | none =>
    dsimp only []
    rw [if_pos hne]
  | some x => rfl

end Pngme

namespace Pngme

set_option maxRecDepth 40000 in
/-- C4 counterexample: for the valid chunk with type "RuSt" and empty
data, flipping bit 7 of serialized byte 4 (the first type byte, 82,
becoming 210) makes parsing fail with the invalid-byte type error, not
the checksum-mismatch error the claim requires. -/
theorem C4_counterexample :
    Chunk.parseChunk (flipBit (Chunk.new rustType []).as_bytes 4 7) =
      .error (.typeError (.invalidByte 210)) ∧
    Chunk.isCrcMismatch
      (Chunk.parseChunk (flipBit (Chunk.new rustType []).as_bytes 4 7)) = false := by
  constructor <;> decide

/-- C4 amended: for a chunk satisfying the data-model invariant,
flipping any single bit inside the type or data region of its
serialization (length and crc fields unchanged) makes parsing fail:
with the checksum-mismatch error — carrying the recomputed checksum and
the chunk's crc — whenever the four type bytes after the flip are still
ASCII letters (always the case for flips inside the data region), and
with the invalid-byte type error on the first invalid type byte
otherwise. -/
theorem C4_bit_flip_detected (c : Chunk) (j k : Nat)
    (hlen : c.length = c.chunk_data.length)
    (hcrc : c.crc = Chunk.gen_u32_crc (c.chunk_type.bytes ++ c.chunk_data))
    (hmax : c.length ≤ MAXIMUM_LENGTH)
    (htype : c.chunk_type.all_valid_bytes = true)
    (hdata : ∀ b ∈ c.chunk_data, b < 256)
    (hj : j < 4 + c.chunk_data.length) (hk : k < 8) :
    Chunk.parseChunk (flipBit c.as_bytes (4 + j) k) =
      match ((flipBit (c.chunk_type.bytes ++ c.chunk_data) j k).take 4).find?
          (fun x => ! ChunkType.is_valid_byte x) with
      | some x => .error (.typeError (.invalidByte x))
      | none => .error (.invalidCrc
          (Chunk.gen_u32_crc (flipBit (c.chunk_type.bytes ++ c.chunk_data) j k))
          c.crc) := by
  obtain ⟨L, ⟨a, b, c2, d⟩, data, crc⟩ := c
  simp only at hlen hcrc hmax htype hdata hj
  subst hlen
  obtain ⟨ha, hb, hc2, hd⟩ := (ChunkType.all_valid_bytes_iff _).mp htype
  simp only at ha hb hc2 hd
  have hbytes : ∀ x ∈ [a, b, c2, d] ++ data, x < 256 := by
    intro x hx
    simp at hx
    rcases hx with h | h | h | h | h
    · exact h ▸ ChunkType.lt_256_of_valid ha
    · exact h ▸ ChunkType.lt_256_of_valid hb
    · exact h ▸ ChunkType.lt_256_of_valid hc2
    · exact h ▸ ChunkType.lt_256_of_valid hd
    · exact hdata x h
  have hcrc' : crc = Chunk.gen_u32_crc ([a, b, c2, d] ++ data) := hcrc
  have hcrclt : crc < 2 ^ 32 := hcrc' ▸ Chunk.gen_u32_crc_lt hbytes
  have hjm : j < ([a, b, c2, d] ++ data).length := by
    simp only [List.length_append]
    simp only [List.length_cons, List.length_nil]
    omega
  have hgenflip : Chunk.gen_u32_crc (flipBit ([a, b, c2, d] ++ data) j k) ≠
      Chunk.gen_u32_crc ([a, b, c2, d] ++ data) :=
    Chunk.gen_u32_crc_flipBit_ne hjm hk hbytes
  have hne : crc ≠ Chunk.gen_u32_crc (flipBit ([a, b, c2, d] ++ data) j k) := by
    rw [hcrc']
    exact fun h => hgenflip h.symm
  have hflip1 : flipBit
      (Chunk.as_bytes ⟨data.length, ⟨a, b, c2, d⟩, data, crc⟩) (4 + j) k =
      Chunk.be32 data.length ++
        (flipBit ([a, b, c2, d] ++ data) j k ++ Chunk.be32 crc) := by
    show flipBit (Chunk.be32 data.length ++ [a, b, c2, d] ++ data ++
      Chunk.be32 crc) (4 + j) k = _
    rw [List.append_assoc, List.append_assoc,
      show 4 + j = (Chunk.be32 data.length).length + j from rfl,
      flipBit_append_right (Chunk.be32 data.length) j k,
      ← List.append_assoc [a, b, c2, d] data (Chunk.be32 crc),
      flipBit_append_left hjm]
  show Chunk.parseChunk
      (flipBit (Chunk.as_bytes ⟨data.length, ⟨a, b, c2, d⟩, data, crc⟩) (4 + j) k) = _
  rw [hflip1]
  dsimp only [ChunkType.bytes]
  rcases Nat.lt_or_ge j 4 with hj4 | hj4
  · have hsplit : flipBit ([a, b, c2, d] ++ data) j k =
        flipBit [a, b, c2, d] j k ++ data :=
      flipBit_append_left (by simp; omega)
    interval_cases j
    · have hev : flipBit ([a, b, c2, d] ++ data) 0 k =
          [a ^^^ 2 ^ k, b, c2, d] ++ data := by
        rw [hsplit]
        exact rfl
      rw [hev]
      rw [show (([a ^^^ 2 ^ k, b, c2, d] ++ data).take 4) =
        [a ^^^ 2 ^ k, b, c2, d] from List.take_left' rfl]
      exact Chunk.parseChunk_msg_ne _ _ _ _ data crc hmax hcrclt
        (by rw [← hev]; exact hne)
    · have hev : flipBit ([a, b, c2, d] ++ data) 1 k =
          [a, b ^^^ 2 ^ k, c2, d] ++ data := by
        rw [hsplit]
        exact rfl
      rw [hev]
      rw [show (([a, b ^^^ 2 ^ k, c2, d] ++ data).take 4) =
        [a, b ^^^ 2 ^ k, c2, d] from List.take_left' rfl]
      exact Chunk.parseChunk_msg_ne _ _ _ _ data crc hmax hcrclt
        (by rw [← hev]; exact hne)
    · have hev : flipBit ([a, b, c2, d] ++ data) 2 k =
          [a, b, c2 ^^^ 2 ^ k, d] ++ data := by
        rw [hsplit]
        exact rfl
      rw [hev]
      rw [show (([a, b, c2 ^^^ 2 ^ k, d] ++ data).take 4) =
        [a, b, c2 ^^^ 2 ^ k, d] from List.take_left' rfl]
      exact Chunk.parseChunk_msg_ne _ _ _ _ data crc hmax hcrclt
        (by rw [← hev]; exact hne)
    · have hev : flipBit ([a, b, c2, d] ++ data) 3 k =
          [a, b, c2, d ^^^ 2 ^ k] ++ data := by
        rw [hsplit]
        exact rfl
      rw [hev]
      rw [show (([a, b, c2, d ^^^ 2 ^ k] ++ data).take 4) =
        [a, b, c2, d ^^^ 2 ^ k] from List.take_left' rfl]
      exact Chunk.parseChunk_msg_ne _ _ _ _ data crc hmax hcrclt
        (by rw [← hev]; exact hne)
  · have h4 : j = [a, b, c2, d].length + (j - 4) := by
      simp only [List.length_cons, List.length_nil]
      omega
    have hsplit : flipBit ([a, b, c2, d] ++ data) j k =
        [a, b, c2, d] ++ flipBit data (j - 4) k := by
      calc flipBit ([a, b, c2, d] ++ data) j k
          = flipBit ([a, b, c2, d] ++ data) ([a, b, c2, d].length + (j - 4)) k := by
            rw [← h4]
        _ = [a, b, c2, d] ++ flipBit data (j - 4) k :=
            flipBit_append_right [a, b, c2, d] (j - 4) k
    rw [hsplit]
    rw [show (([a, b, c2, d] ++ flipBit data (j - 4) k).take 4) =
      [a, b, c2, d] from List.take_left' rfl]
    have hlen' : (flipBit data (j - 4) k).length = data.length :=
      flipBit_length data (j - 4) k
    have hmain := Chunk.parseChunk_msg_ne a b c2 d (flipBit data (j - 4) k) crc
      (by rw [hlen']; exact hmax) hcrclt (by rw [← hsplit]; exact hne)
    rw [hlen'] at hmain
    rw [hmain]

set_option maxRecDepth 40000 in
/-- Witness for C4: flipping bit 0 of the first data byte of a one-byte
chunk. -/
theorem C4_bit_flip_detected_witness :
    Chunk.parseChunk (flipBit (Chunk.new rustType [72]).as_bytes (4 + 4) 0) =
      match ((flipBit ((Chunk.new rustType [72]).chunk_type.bytes ++
          (Chunk.new rustType [72]).chunk_data) 4 0).take 4).find?
          (fun x => ! ChunkType.is_valid_byte x) with
      | some x => .error (.typeError (.invalidByte x))
      | none => .error (.invalidCrc
          (Chunk.gen_u32_crc (flipBit ((Chunk.new rustType [72]).chunk_type.bytes ++
            (Chunk.new rustType [72]).chunk_data) 4 0))
          (Chunk.new rustType [72]).crc) :=
  C4_bit_flip_detected (Chunk.new rustType [72]) 4 0 (by decide) rfl
    (by decide) (by decide) (by decide) (by decide) (by decide)

end Pngme

namespace Pngme

/-- C5 counterexample: the string "aéb" has three characters, so by the
claim from_str must fail with the invalid-length error; its UTF-8
encoding however is four bytes (97, 195, 169, 98), and from_str
instead fails with InvalidByte 195, the first non-letter byte. -/
theorem C5_counterexample :
    (['a', 'é', 'b'] : List Char).length = 3 ∧
    ChunkType.strBytes ['a', 'é', 'b'] = [97, 195, 169, 98] ∧
    ChunkType.from_str ['a', 'é', 'b'] = .error (.invalidByte 195) := by
  refine ⟨rfl, by decide, by decide⟩

/-- C5 amended: from_str fails with InvalidLen carrying the string's
UTF-8 byte length whenever that byte length is not exactly 4; when it
is 4, it behaves exactly as try_from on those four bytes. try_from
fails with InvalidByte on the first byte, scanning left to right, that
is outside the ASCII-letter ranges 65–90 and 97–122, and otherwise
succeeds with a ChunkType holding exactly the given bytes. -/
theorem C5_chunk_type_construction :
    (∀ s : List Char,
      ((ChunkType.strBytes s).length ≠ 4 →
        ChunkType.from_str s = .error (.invalidLen (ChunkType.strBytes s).length)) ∧
      (∀ a b c d : Nat, ChunkType.strBytes s = [a, b, c, d] →
        ChunkType.from_str s = ChunkType.tryFrom a b c d)) ∧
    (∀ a b c d : Nat,
      ChunkType.tryFrom a b c d =
        match [a, b, c, d].find? (fun x => ! ChunkType.is_valid_byte x) with
        | some x => .error (.invalidByte x)
        | none => .ok ⟨a, b, c, d⟩) := by
  refine ⟨fun s => ⟨?_, ?_⟩, ChunkType.tryFrom_find⟩
  · intro h
    unfold ChunkType.from_str
    dsimp only []
    rw [if_pos h]
  · intro a b c d h
    unfold ChunkType.from_str
    dsimp only []
    rw [h]
    rw [if_neg (by simp)]
    rfl

set_option maxRecDepth 40000 in
/-- Witness for C5: the two-character string "ab" fails with the length
error, and "RuSt" delegates to try_from, which succeeds with the four
bytes. -/
theorem C5_chunk_type_construction_witness :
    ChunkType.from_str ['a', 'b'] = .error (.invalidLen 2) ∧
    ChunkType.from_str ['R', 'u', 'S', 't'] = ChunkType.tryFrom 82 117 83 116 ∧
    ChunkType.tryFrom 82 117 83 116 = .ok ⟨82, 117, 83, 116⟩ := by
  refine ⟨?_, ?_, ?_⟩
  · exact (C5_chunk_type_construction.1 ['a', 'b']).1 (by decide)
  · exact (C5_chunk_type_construction.1 ['R', 'u', 'S', 't']).2 82 117 83 116 (by decide)
  · rw [C5_chunk_type_construction.2 82 117 83 116]
    decide

end Pngme
